import Mathlib

/-!
Verification of the region-search indexing/query core of `tiles.py`
(keenangraham/region-search-tiledb) against its natural-language
specification.

The Python source is shallowly embedded: candidate record arrays become
`List Result`, generators become `List` computations, the closure-based
accession registry becomes an explicit `Registry` state threaded through
the operations, and the `zip(*...)` unpack that can raise `ValueError`
becomes an `Except`-valued function.  Python `dict`s are modelled as
association lists with prepend-shadowing writes (a later write to the
same key shadows the earlier binding, exactly as a `dict` assignment
overwrites it).
-/

set_option autoImplicit false

namespace Tiles

/-- Fixed quantization step, `GAP = 1000` in `tiles.py`. -/
def GAP : Int := 1000

/-- One stored payload record, the structured numpy attribute value.
The dtype declares fields `('chrom','start','end')` but the value written
is `(file_index, start, end)`; the numba filter accesses the fields as
`f0`, `f1`, `f2`, so we keep those positional names: `f0` holds the file
index, `f1` the original interval start, `f2` the original interval end. -/
structure Result where
  f0 : Nat
  f1 : Int
  f2 : Int
deriving DecidableEq

/-- Models `query_intersects_result(result, start, end)`:
`(result['f2'] >= start) and (result['f1'] <= end)`. -/
def query_intersects_result (result : Result) (start end_ : Int) : Bool :=
  decide (result.f2 ≥ start) && decide (result.f1 ≤ end_)

/-- Models the first (sizing) pass of `filter_results`: the `while` loop
`while filtered_length < limit and length < results.size` returns the
number `length` of candidates scanned before either `limit` true matches
were seen or the array was exhausted. -/
def scan_length (start end_ : Int) : Nat → List Result → Nat
  | _, [] => 0
  | 0, _ => 0
  | Nat.succ lim, r :: rs =>
      if query_intersects_result r start end_ then
        Nat.succ (scan_length start end_ lim rs)
      else
        Nat.succ (scan_length start end_ (Nat.succ lim) rs)

/-- Models `filter_results(results, start, end, limit)`: a sizing pass
computes `length = scan_length`, then the materialization pass re-tests
the first `length` candidates and copies the true matches in order into
the pre-sized output buffer. -/
def filter_results (results : List Result) (start end_ : Int) (limit : Nat) : List Result :=
  (results.take (scan_length start end_ limit results)).filter
    (fun r => query_intersects_result r start end_)

/-- The alternative implementation the spec declares equivalent: a single
bounded order-preserving pass copying true matches into a growable buffer
capped at `limit`. -/
def filter_single_pass (start end_ : Int) : Nat → List Result → List Result
  | _, [] => []
  | 0, _ => []
  | Nat.succ lim, r :: rs =>
      if query_intersects_result r start end_ then
        r :: filter_single_pass start end_ lim rs
      else
        filter_single_pass start end_ (Nat.succ lim) rs

lemma scan_length_nil (start end_ : Int) (limit : Nat) :
    scan_length start end_ limit [] = 0 := by
  cases limit <;> rfl

lemma take_scan_length_filter (start end_ : Int) :
    ∀ (l : List Result) (limit : Nat),
      (l.take (scan_length start end_ limit l)).filter
          (fun r => query_intersects_result r start end_)
        = (l.filter (fun r => query_intersects_result r start end_)).take limit := by
  intro l
  induction l with
  | nil => intro limit; simp [scan_length_nil]
  | cons r rs ih =>
    intro limit
    cases limit with
    | zero => simp [scan_length]
    | succ lim =>
      by_cases h : query_intersects_result r start end_
      · simp [scan_length, h, List.filter_cons, ih lim]
      · simp [scan_length, h, List.filter_cons, ih (Nat.succ lim)]

lemma filter_results_eq_take_filter (results : List Result) (start end_ : Int) (limit : Nat) :
    filter_results results start end_ limit
      = (results.filter (fun r => query_intersects_result r start end_)).take limit :=
  take_scan_length_filter start end_ results limit

lemma filter_single_pass_eq_take_filter (start end_ : Int) :
    ∀ (l : List Result) (limit : Nat),
      filter_single_pass start end_ limit l
        = (l.filter (fun r => query_intersects_result r start end_)).take limit := by
  intro l
  induction l with
  | nil => intro limit; cases limit <;> rfl
  | cons r rs ih =>
    intro limit
    cases limit with
    | zero => rfl
    | succ lim =>
      by_cases h : query_intersects_result r start end_
      · simp [filter_single_pass, h, List.filter_cons, ih lim]
      · simp [filter_single_pass, h, List.filter_cons, ih (Nat.succ lim)]

/-- C1: the bounded filter returns exactly the true matches
(`end ≥ qstart ∧ start ≤ qend`) in candidate arrival order, truncated to
`min (limit, true match count)`; every output element truly overlaps, the
output is the `limit`-prefix of the full ordered match list (so no earlier
true match is dropped unless the limit was already reached), and
`limit = 0` yields an empty output. -/
theorem c1_filter_correctness (results : List Result) (qstart qend : Int) (limit : Nat) :
    filter_results results qstart qend limit
        = (results.filter (fun r => query_intersects_result r qstart qend)).take limit
      ∧ (filter_results results qstart qend limit).length
        = min limit (results.filter (fun r => query_intersects_result r qstart qend)).length
      ∧ (∀ r ∈ filter_results results qstart qend limit,
          query_intersects_result r qstart qend = true)
      ∧ filter_results results qstart qend 0 = [] := by
  refine ⟨filter_results_eq_take_filter results qstart qend limit, ?_, ?_, ?_⟩
  · rw [filter_results_eq_take_filter, List.length_take]
  · intro r hr
    rw [filter_results_eq_take_filter] at hr
    have hr2 : r ∈ results.filter (fun r => query_intersects_result r qstart qend) :=
      List.mem_of_mem_take hr
    exact (List.mem_filter.mp hr2).2
  · rw [filter_results_eq_take_filter]
    simp

/-- C7: the two-pass bounded filter of `filter_results` (sizing pass then
materialization pass) produces output identical — same elements, same
order, same length — to a single bounded order-preserving pass into a
buffer capped at `limit`, for every candidate list, query window and
limit. -/
theorem c7_two_pass_equiv (results : List Result) (qstart qend : Int) (limit : Nat) :
    filter_results results qstart qend limit = filter_single_pass qstart qend limit results := by
  rw [filter_results_eq_take_filter, filter_single_pass_eq_take_filter]

/-- Models Python `range(start, stop, step)` iteration for a positive step
(the only way the source calls it: `range(start, end, gap)` with
`gap = GAP = 1000`): the list `[start, start+step, start+2*step, ...]` of
values strictly below `stop`. -/
def pyRange (start stop step : Int) : List Int :=
  if _h : 0 < step ∧ start < stop then start :: pyRange (start + step) stop step else []
termination_by (stop - start).toNat
decreasing_by omega

lemma pyRange_unfold (start stop step : Int) :
    pyRange start stop step
      = if 0 < step ∧ start < stop then start :: pyRange (start + step) stop step else [] := by
  rw [pyRange, dite_eq_ite]

/-- Models `get_positions_for_region(start, end, gap)`:
`(position for position in range(start, end, gap))`. -/
def get_positions_for_region (start end_ gap : Int) : List Int :=
  pyRange start end_ gap

lemma mem_pyRange_succ_aux (stop step : Int) (hstep : 0 < step) :
    ∀ (n : Nat) (start x : Int), (stop - start).toNat ≤ n →
      x ∈ pyRange start stop step → ∃ k : Nat, x = start + k * step ∧ x < stop := by
  intro n
  induction n with
  | zero =>
    intro start x hn hx
    rw [pyRange_unfold] at hx
    have : ¬ (0 < step ∧ start < stop) := by omega
    simp [this] at hx
  | succ n ih =>
    intro start x hn hx
    rw [pyRange_unfold] at hx
    by_cases hlt : start < stop
    · simp [hstep, hlt] at hx
      rcases hx with hx | hx
      · exact ⟨0, by simp [hx], by omega⟩
      · obtain ⟨k, hk, hklt⟩ := ih (start + step) x (by omega) hx
        refine ⟨k + 1, ?_, hklt⟩
        have : ((k + 1 : Nat) : Int) * step = (k : Int) * step + step := by
          push_cast
          ring
        rw [this]
        omega
    · simp [hlt] at hx

lemma mem_pyRange_of_aux (stop step : Int) (hstep : 0 < step) :
    ∀ (k : Nat) (start : Int), start + k * step < stop →
      start + k * step ∈ pyRange start stop step := by
  intro k
  induction k with
  | zero =>
    intro start hlt
    simp only [Nat.cast_zero, zero_mul, add_zero] at hlt ⊢
    rw [pyRange_unfold]
    simp [hstep, hlt]
  | succ k ih =>
    intro start hlt
    have hk : (0 : Int) ≤ (k : Int) * step :=
      mul_nonneg (Int.natCast_nonneg k) (le_of_lt hstep)
    have hcast : ((k + 1 : Nat) : Int) * step = (k : Int) * step + step := by
      push_cast
      ring
    have hlt2 : (start + step) + (k : Int) * step < stop := by
      rw [hcast] at hlt
      omega
    have hstart : start < stop := by
      rw [hcast] at hlt
      omega
    have := ih (start + step) hlt2
    rw [pyRange_unfold]
    simp only [hstep, hstart, and_self, if_true, List.mem_cons]
    right
    rw [hcast]
    have harr : start + ((k : Int) * step + step) = (start + step) + (k : Int) * step := by
      ring
    rw [harr]
    exact this

/-- Membership characterization of the generated coordinates: for a
positive step, `x` is generated for `[start, stop)` exactly when
`x = start + k * step` for some `k ≥ 0` with `x < stop`. -/
lemma mem_pyRange (start stop step x : Int) (hstep : 0 < step) :
    x ∈ pyRange start stop step ↔ ∃ k : Nat, x = start + k * step ∧ x < stop := by
  constructor
  · exact mem_pyRange_succ_aux stop step hstep (stop - start).toNat start x (le_refl _)
  · rintro ⟨k, rfl, hlt⟩
    exact mem_pyRange_of_aux stop step hstep k start hlt

lemma pyRange_eq_nil_iff (start stop step : Int) (hstep : 0 < step) :
    pyRange start stop step = [] ↔ stop ≤ start := by
  rw [pyRange_unfold]
  by_cases h : start < stop
  · rw [if_pos (And.intro hstep h)]
    constructor
    · intro hc
      exact absurd hc (List.cons_ne_nil _ _)
    · intro hle
      exact absurd hle (by omega)
  · rw [if_neg (fun hc => h hc.2)]
    constructor
    · intro _
      omega
    · intro _
      rfl

/-- C3: for every interval `[start, end)` and positive step, the generated
coordinate set of `get_positions_for_region` equals
`{start + k * gap : k ≥ 0, start + k * gap < end}`, and it is empty iff
`start ≥ end`. -/
theorem c3_positions (start end_ gap : Int) (hgap : 0 < gap) :
    (∀ x, x ∈ get_positions_for_region start end_ gap
        ↔ ∃ k : Nat, x = start + k * gap ∧ x < end_)
      ∧ (get_positions_for_region start end_ gap = [] ↔ end_ ≤ start) := by
  constructor
  · intro x
    exact mem_pyRange start end_ gap x hgap
  · exact pyRange_eq_nil_iff start end_ gap hgap

/-- Witness for `c3_positions` at the spec's end-to-end example interval
`[5000, 7200)` with `gap = 1000`. -/
theorem c3_positions_witness :
    (0 : Int) < 1000
      ∧ ((∀ x, x ∈ get_positions_for_region 5000 7200 1000
            ↔ ∃ k : Nat, x = 5000 + k * 1000 ∧ x < 7200)
         ∧ (get_positions_for_region 5000 7200 1000 = [] ↔ (7200 : Int) ≤ 5000)) :=
  ⟨by norm_num, c3_positions 5000 7200 1000 (by norm_num)⟩

lemma pos_head_case (start end_ qstart qend : Int) (h0 : 0 ≤ start) (hse : start < end_)
    (hsq : start ≤ qend) (hge : qstart - GAP ≤ start) :
    ∃ pos ∈ pyRange start end_ GAP, max 0 (qstart - GAP) ≤ pos ∧ pos ≤ qend := by
  refine ⟨start, ?_, ?_, hsq⟩
  · rw [pyRange_unfold, if_pos (And.intro (by norm_num [GAP]) hse)]
    exact List.mem_cons_self _ _
  · exact max_le h0 hge

lemma exists_pos_in_widened : ∀ (n : Nat) (start end_ qstart qend : Int),
    (qstart - start).toNat ≤ n →
    0 ≤ start → start < end_ → qstart ≤ end_ → start ≤ qend → qstart ≤ qend →
    ∃ pos ∈ pyRange start end_ GAP, max 0 (qstart - GAP) ≤ pos ∧ pos ≤ qend := by
  have hG : GAP = 1000 := rfl
  intro n
  induction n with
  | zero =>
    intro start end_ qstart qend hn h0 hse hqe hsq hqq
    exact pos_head_case start end_ qstart qend h0 hse hsq (by omega)
  | succ n ih =>
    intro start end_ qstart qend hn h0 hse hqe hsq hqq
    by_cases hcase : qstart - GAP ≤ start
    · exact pos_head_case start end_ qstart qend h0 hse hsq hcase
    · have hlt : start + GAP < qstart := by omega
      have hse2 : start + GAP < end_ := by omega
      obtain ⟨pos, hmem, hlo, hhi⟩ :=
        ih (start + GAP) end_ qstart qend (by omega) (by omega) hse2 hqe (by omega) hqq
      refine ⟨pos, ?_, hlo, hhi⟩
      rw [pyRange_unfold, if_pos (And.intro (by norm_num [GAP]) hse)]
      exact List.mem_cons_of_mem _ hmem

lemma positions_example : get_positions_for_region 1001 2010 GAP = [1001, 2001] := by
  have hG : GAP = 1000 := rfl
  rw [get_positions_for_region, hG]
  rw [pyRange_unfold, if_pos (by norm_num)]
  rw [pyRange_unfold, if_pos (by norm_num)]
  rw [pyRange_unfold, if_neg (by norm_num)]
  norm_num

/-- C2 counterexample: the claim's concrete example is false as stated.
With `qstart = 2000`, `qend = 3000` and `GAP = 1000`, the interval with
`start = qstart - GAP + 1 = 1001`, `end = qstart + 10 = 2010` is a true
overlap of the window, and one of its generated coordinates (2001)
already lies inside the UNWIDENED window `[qstart, qend]`, so the interval
is not "missed by the unwidened window" as the claim asserts. -/
theorem c2_counterexample :
    ((2010 : Int) ≥ 2000 ∧ (1001 : Int) ≤ 3000)
      ∧ ∃ pos ∈ get_positions_for_region 1001 2010 GAP, 2000 ≤ pos ∧ pos ≤ 3000 := by
  refine ⟨by norm_num, ⟨2001, ?_, by norm_num, by norm_num⟩⟩
  rw [positions_example]
  simp

/-- C2 (amended): widening the lower read bound by `GAP` is sufficient:
every stored interval `[start, end)` with `0 ≤ start < end` that truly
overlaps the window `[qstart, qend]` (with `qstart ≤ qend`) has a
generated coordinate inside the widened window
`[max 0 (qstart - GAP), qend]`.  The concrete necessity example holds for
a point query `qend = qstart`: with `qstart = qend = 2000` the interval
with `start = qstart - GAP + 1 = 1001`, `end = qstart + 10 = 2010` is
found by the widened read and missed by the unwidened window (for
`qend > qstart` the same interval can be found without widening, via its
coordinate `qstart + 1`). -/
theorem c2_amended :
    (∀ start end_ qstart qend : Int,
        0 ≤ start → start < end_ → qstart ≤ end_ → start ≤ qend → qstart ≤ qend →
        ∃ pos ∈ get_positions_for_region start end_ GAP,
          max 0 (qstart - GAP) ≤ pos ∧ pos ≤ qend)
      ∧ (∃ pos ∈ get_positions_for_region 1001 2010 GAP,
          max 0 (2000 - GAP) ≤ pos ∧ pos ≤ 2000)
      ∧ ¬ (∃ pos ∈ get_positions_for_region 1001 2010 GAP, 2000 ≤ pos ∧ pos ≤ 2000) := by
  refine ⟨?_, ?_, ?_⟩
  · intro start end_ qstart qend h0 hse hqe hsq hqq
    exact exists_pos_in_widened (qstart - start).toNat start end_ qstart qend (le_refl _)
      h0 hse hqe hsq hqq
  · refine ⟨1001, ?_, ?_, by norm_num⟩
    · rw [positions_example]
      simp
    · have hG : GAP = 1000 := rfl
      rw [hG]
      norm_num
  · rintro ⟨pos, hmem, h1, h2⟩
    rw [positions_example] at hmem
    simp at hmem
    omega

/-- Witness for `c2_amended` at the spec's end-to-end example: interval
`[5000, 7200)`, query window `[6500, 9000]`. -/
theorem c2_amended_witness :
    ((0 : Int) ≤ 5000 ∧ (5000 : Int) < 7200 ∧ (6500 : Int) ≤ 7200 ∧ (5000 : Int) ≤ 9000
        ∧ (6500 : Int) ≤ 9000)
      ∧ ∃ pos ∈ get_positions_for_region 5000 7200 GAP,
          max 0 (6500 - GAP) ≤ pos ∧ pos ≤ 9000 :=
  ⟨by norm_num,
    c2_amended.1 5000 7200 6500 9000 (by norm_num) (by norm_num) (by norm_num) (by norm_num)
      (by norm_num)⟩

/-- Default of `FILE_INDEX_START = int(os.environ.get('FILE_INDEX_START', 0))`. -/
def FILE_INDEX_START : Nat := 0

/-- The mutable state captured by the closures of
`get_find_index_and_find_file_maps`: the two dicts and the counter.  A
dict is an association list where a write prepends (shadowing any older
binding of the same key, as a dict assignment overwrites it) and a read
is `List.lookup`. -/
structure Registry where
  accession_to_index : List (String × Nat)
  index_to_accession : List (Nat × String)
  current_index : Nat
deriving DecidableEq

/-- The state produced by `get_find_index_and_find_file_maps()` itself:
empty maps, counter at `FILE_INDEX_START`.  A fresh process (such as a
resumed ingestion run) starts here. -/
def init_registry : Registry :=
  { accession_to_index := [], index_to_accession := [], current_index := FILE_INDEX_START }

/-- Models `find_index(accession)`: returns the existing index if
present, otherwise assigns `current_index`, inserts into both maps and
increments the counter.  Returns the index together with the updated
state. -/
def find_index (s : Registry) (accession : String) : Nat × Registry :=
  match s.accession_to_index.lookup accession with
  | some i => (i, s)
  | none =>
      (s.current_index,
        { accession_to_index := (accession, s.current_index) :: s.accession_to_index
          index_to_accession := (s.current_index, accession) :: s.index_to_accession
          current_index := s.current_index + 1 })

/-- Models `find_file(index)`: reverse lookup, `none` for unknown
indices. -/
def find_file (s : Registry) (index : Nat) : Option String :=
  s.index_to_accession.lookup index

/-- Models `save_maps(database)`: a full snapshot of both maps (the JSON
serialization itself is external I/O). -/
def save_maps (s : Registry) : List (String × Nat) × List (Nat × String) :=
  (s.accession_to_index, s.index_to_accession)

/-- Models `load_maps(database)`: both maps are replaced by the loaded
snapshots; `current_index` is NOT touched by the source. -/
def load_maps (s : Registry) (a_to_i : List (String × Nat)) (i_to_a : List (Nat × String)) :
    Registry :=
  { s with accession_to_index := a_to_i, index_to_accession := i_to_a }

/-- Models `get_maps()`. -/
def get_maps (s : Registry) : List (String × Nat) × List (Nat × String) :=
  (s.accession_to_index, s.index_to_accession)

/-- Models `set_maps(a_to_i, i_to_a)`: like `load_maps`, the counter is
not touched. -/
def set_maps (s : Registry) (a_to_i : List (String × Nat)) (i_to_a : List (Nat × String)) :
    Registry :=
  { s with accession_to_index := a_to_i, index_to_accession := i_to_a }

/-- The forward and reverse maps are exact mutual inverses (on lookups,
which is all a dict exposes). -/
def mutual_inverses (s : Registry) : Prop :=
  (∀ a i, s.accession_to_index.lookup a = some i → s.index_to_accession.lookup i = some a)
    ∧ (∀ i a, s.index_to_accession.lookup i = some a → s.accession_to_index.lookup a = some i)

/-- First run: one accession registered (gets index 0), then saved. -/
def load_bug_run1 : Registry := (find_index init_registry "ENCFF001").2

/-- Resumed run: a fresh process (counter back at `FILE_INDEX_START`)
loads the saved maps; `load_maps` does not restore the counter. -/
def load_bug_resumed : Registry :=
  load_maps init_registry (save_maps load_bug_run1).1 (save_maps load_bug_run1).2

/-- The resumed run registers a new accession. -/
def load_bug_final : Registry := (find_index load_bug_resumed "ENCFF002").2

/-- C4 fails on the code: `load_maps` replaces the maps but leaves
`current_index` at `FILE_INDEX_START`, so a run that loads a previously
saved registry and then calls `find_index` on a new accession reassigns
the already-used index 0, and the forward and reverse maps stop being
mutual inverses. -/
theorem c4_load_counter_bug :
    (find_index init_registry "ENCFF001").1 = 0
      ∧ load_bug_resumed.current_index = FILE_INDEX_START
      ∧ (find_index load_bug_resumed "ENCFF002").1 = 0
      ∧ load_bug_final.accession_to_index.lookup "ENCFF001" = some 0
      ∧ load_bug_final.index_to_accession.lookup 0 = some "ENCFF002"
      ∧ ¬ mutual_inverses load_bug_final := by
  refine ⟨rfl, rfl, rfl, by decide, by decide, ?_⟩
  intro h
  have h1 : load_bug_final.index_to_accession.lookup 0 = some "ENCFF001" :=
    h.1 "ENCFF001" 0 (by decide)
  have h2 : load_bug_final.index_to_accession.lookup 0 = some "ENCFF002" := by decide
  rw [h1] at h2
  simp at h2

/-- Repeated `find_index` on the same accession in the same state returns
the same index and performs no further state change (this part of C6
holds unconditionally). -/
lemma find_index_idempotent (s : Registry) (accession : String) :
    find_index (find_index s accession).2 accession = find_index s accession := by
  unfold find_index
  cases h : s.accession_to_index.lookup accession with
  | some i => simp [h]
  | none => simp [h, List.lookup]

/-- When the maps are mutual inverses, `find_file (find_index a) = a`
(this part of C6 holds for uncorrupted states). -/
lemma find_file_find_index (s : Registry) (accession : String)
    (hinv : ∀ a i, s.accession_to_index.lookup a = some i →
      s.index_to_accession.lookup i = some a) :
    find_file (find_index s accession).2 (find_index s accession).1 = some accession := by
  unfold find_index find_file
  cases h : s.accession_to_index.lookup accession with
  | some i => simpa using hinv accession i h
  | none => simp [List.lookup]

/-- C6 fails on the code: in a resumed run that loaded a saved registry
(the counter left at `FILE_INDEX_START` by `load_maps`) and registered
one new accession, `find_file(find_index("ENCFF001"))` returns
`"ENCFF002"`, not `"ENCFF001"`. -/
theorem c6_find_file_after_load_bug :
    (find_index load_bug_final "ENCFF001").1 = 0
      ∧ find_file (find_index load_bug_final "ENCFF001").2
          (find_index load_bug_final "ENCFF001").1 = some "ENCFF002"
      ∧ find_file (find_index load_bug_final "ENCFF001").2
          (find_index load_bug_final "ENCFF001").1 ≠ some "ENCFF001" := by
  refine ⟨by decide, by decide, ?_⟩
  intro h
  have h2 : find_file (find_index load_bug_final "ENCFF001").2
      (find_index load_bug_final "ENCFF001").1 = some "ENCFF002" := by decide
  rw [h] at h2
  simp at h2

/-- Models `get_fill_value_for_region(filename, start, end)`. -/
def get_fill_value_for_region (filename : Nat) (start end_ : Int) : Nat × Int × Int :=
  (filename, start, end_)

/-- Models `get_data_for_region(file_index, region, gap)`: one
`(chrom, position, fill_value)` triple per generated position, the fill
value carrying the unquantized bounds. -/
def get_data_for_region (file_index : Nat) (region : Int × Int × Int) (gap : Int) :
    List (Int × Int × (Nat × Int × Int)) :=
  match region with
  | (chrom, start, end_) =>
      (get_positions_for_region start end_ gap).map
        (fun position => (chrom, position, get_fill_value_for_region file_index start end_))

/-- Models `generate_positions_from_regions(file_index, file_, gap)` with
the parsed region list of the file as input. -/
def generate_positions_from_regions (file_index : Nat) (regions : List (Int × Int × Int))
    (gap : Int) : List (Int × Int × (Nat × Int × Int)) :=
  regions.flatMap (fun region => get_data_for_region file_index region gap)

/-- Models `write_data_for_file(open_array, file_index, file_)` up to the
store write: `chroms, positions, data = zip(*generator)` unpacks the
generated rows into the three column lists handed to the store.  When the
generator yields nothing, `zip()` produces zero tuples and the unpack of
three names raises `ValueError`; this is modelled as the `Except.error`
branch. -/
def write_data_for_file (file_index : Nat) (regions : List (Int × Int × Int)) :
    Except String (List Int × List Int × List (Nat × Int × Int)) :=
  let rows := generate_positions_from_regions file_index regions GAP
  if rows.isEmpty then
    Except.error "ValueError: not enough values to unpack (expected 3, got 0)"
  else
    Except.ok (rows.map (fun r => r.1), rows.map (fun r => r.2.1), rows.map (fun r => r.2.2))

/-- Models `recover_file_from_result(result)`: resolve the stored file
index through the registry, keep the raw bounds. -/
def recover_file_from_result (s : Registry) (result : Result) : Option String × Int × Int :=
  (find_file s result.f0, result.f1, result.f2)

/-- Models `query_region(database, chrom, start, end, limit)` after the
store read: `candidates` stands for the deduplicated payload list
`pd.unique(A[chrom, max(0, start - GAP):(end + 1)][ATTRIBUTE_NAME])`
returned by the external store; the bounded filter and the index
resolution are the in-repo logic. -/
def query_region (s : Registry) (candidates : List Result) (start end_ : Int) (limit : Nat) :
    List (Option String × Int × Int) :=
  (filter_results candidates start end_ limit).map (recover_file_from_result s)

/-- C5 fails on the code for the ingestion half: a source all of whose
intervals are degenerate (here the single region `(1, 5, 5)`) generates
zero coordinates, and `write_data_for_file` raises `ValueError` from the
`zip(*...)` unpack instead of completing silently.  The query half holds:
a widened read returning no candidates yields `[]`, not an error. -/
theorem c5_empty_ingest_bug :
    write_data_for_file 0 [(1, 5, 5)]
        = Except.error "ValueError: not enough values to unpack (expected 3, got 0)"
      ∧ (∀ (s : Registry) (qstart qend : Int) (limit : Nat),
          query_region s [] qstart qend limit = []) := by
  constructor
  · have h : get_positions_for_region 5 5 GAP = [] := by
      rw [get_positions_for_region, pyRange_unfold, if_neg]
      norm_num [GAP]
    simp [write_data_for_file, generate_positions_from_regions, get_data_for_region, h]
  · intro s qstart qend limit
    simp [query_region, filter_results, scan_length_nil]

/-- The literal token table `CHROMOSOME_TO_NUMBER`. -/
def CHROMOSOME_TO_NUMBER : List (String × Int) := [("X", 23), ("Y", 24), ("M", 25)]

/-- Models `str.replace('chr', '')`: removes every non-overlapping
occurrence of `"chr"`, scanning left to right (not only a prefix). -/
def removeChr : List Char → List Char
  | 'c' :: 'h' :: 'r' :: rest => removeChr rest
  | c :: rest => c :: removeChr rest
  | [] => []

/-- Models `parse_chromosome(chromosome)`: removes `"chr"` occurrences,
then `CHROMOSOME_TO_NUMBER.get(c, c)` gives either the mapped number
(left) or the remaining string unchanged (right). -/
def parse_chromosome (chromosome : String) : Int ⊕ String :=
  let c := String.mk (removeChr chromosome.data)
  match CHROMOSOME_TO_NUMBER.lookup c with
  | some n => Sum.inl n
  | none => Sum.inr c

/-- Models Python `int(c)` on a plain decimal token: an optional sign
followed by at least one digit; anything else raises `ValueError`
(`none`).  Python additionally tolerates surrounding whitespace and inner
underscores; those do not occur in chromosome labels and are outside the
modelled scope. -/
def digitsVal (cs : List Char) : Option Nat :=
  if cs = [] ∨ ¬ cs.all Char.isDigit then none
  else some (cs.foldl (fun acc c => acc * 10 + (c.toNat - '0'.toNat)) 0)

def int_of_string (cs : List Char) : Option Int :=
  match cs with
  | '-' :: rest => (digitsVal rest).map (fun n => -(n : Int))
  | '+' :: rest => (digitsVal rest).map (fun n => (n : Int))
  | _ => (digitsVal cs).map (fun n => (n : Int))

/-- Models the per-feature `int(parse_chromosome(feature.chrom))` wrapped
in `try ... except ValueError`: `none` means the record is skipped
(`continue`). -/
def parse_chrom_record (chromosome : String) : Option Int :=
  match parse_chromosome chromosome with
  | Sum.inl n => some n
  | Sum.inr c => int_of_string c.data

/-- One input record of a BED source: raw chromosome label and bounds. -/
structure Feature where
  chrom : String
  start : Int
  end_ : Int
deriving DecidableEq

/-- Models `get_regions_from_bed(bed)`: parse each label, skip on
failure, otherwise yield `(parsed_chromosome, feature.start,
feature.end)`. -/
def get_regions_from_bed (bed : List Feature) : List (Int × Int × Int) :=
  bed.filterMap (fun f =>
    match parse_chrom_record f.chrom with
    | some n => some (n, f.start, f.end_)
    | none => none)

/-- C8 counterexample: the label `"chr99"` is neither skipped nor mapped
to an integer in `[1, 25]`: parsing yields 99 and the record is ingested
with chromosome 99. -/
theorem c8_counterexample :
    parse_chrom_record "chr99" = some 99
      ∧ get_regions_from_bed [⟨"chr99", 0, 10⟩] = [(99, 0, 10)]
      ∧ ¬ (parse_chrom_record "chr99" = none
            ∨ ∃ n, parse_chrom_record "chr99" = some n ∧ 1 ≤ n ∧ n ≤ 25) := by
  have hv : parse_chrom_record "chr99" = some 99 := by decide
  refine ⟨hv, by decide, ?_⟩
  rintro (h | ⟨n, hn, h1, h2⟩)
  · rw [hv] at h
    exact Option.noConfusion h
  · rw [hv] at hn
    have : n = 99 := by
      injection hn
      omega
    omega

/-- C8 (amended): for every raw chromosome label, ingestion parsing
either skips the record (the run continues with the remaining features)
or yields a record whose chromosome is the integer obtained by removing
every occurrence of `"chr"`, mapping the literal tokens X to 23, Y to 24,
M to 25, and otherwise parsing the remainder as an integer; the resulting
integer is NOT guaranteed to lie in `[1, 25]` (e.g. `"chr99"` yields 99 —
range enforcement happens only at the store's dimension domain). -/
theorem c8_amended :
    (∀ (f : Feature) (bed : List Feature), parse_chrom_record f.chrom = none →
        get_regions_from_bed (f :: bed) = get_regions_from_bed bed)
      ∧ (∀ (f : Feature) (bed : List Feature) (n : Int), parse_chrom_record f.chrom = some n →
          get_regions_from_bed (f :: bed) = (n, f.start, f.end_) :: get_regions_from_bed bed)
      ∧ parse_chrom_record "chrX" = some 23
      ∧ parse_chrom_record "chrY" = some 24
      ∧ parse_chrom_record "chrM" = some 25
      ∧ parse_chrom_record "chr7" = some 7
      ∧ parse_chrom_record "7" = some 7
      ∧ parse_chrom_record "chrUn_gl000220" = none
      ∧ parse_chrom_record "chr99" = some 99 := by
  refine ⟨?_, ?_, by decide, by decide, by decide, by decide, by decide, by decide, by decide⟩
  · intro f bed h
    simp [get_regions_from_bed, List.filterMap_cons, h]
  · intro f bed n h
    simp [get_regions_from_bed, List.filterMap_cons, h]

/-- Witness for `c8_amended`: a skipped scaffold label followed by a
parsed `"chrX"` record. -/
theorem c8_amended_witness :
    (parse_chrom_record "chrUn_gl000220" = none
        ∧ get_regions_from_bed [⟨"chrUn_gl000220", 3, 9⟩, ⟨"chrX", 1, 2⟩]
            = get_regions_from_bed [⟨"chrX", 1, 2⟩])
      ∧ (parse_chrom_record "chrX" = some 23
        ∧ get_regions_from_bed [⟨"chrX", 1, 2⟩] = (23, 1, 2) :: get_regions_from_bed []) :=
  ⟨⟨by decide, c8_amended.1 ⟨"chrUn_gl000220", 3, 9⟩ [⟨"chrX", 1, 2⟩] (by decide)⟩,
   ⟨by decide, c8_amended.2.1 ⟨"chrX", 1, 2⟩ [] 23 (by decide)⟩⟩

/-- Models `s.split('/')`: splits on every `'/'`; an empty input gives
one empty piece, like Python. -/
def splitSlash : List Char → List (List Char)
  | [] => [[]]
  | c :: cs =>
      let r := splitSlash cs
      if c = '/' then [] :: r
      else
        match r with
        | [] => [[c]]
        | piece :: rest => (c :: piece) :: rest

/-- Models `s.split('/')[-1]`: the final path component. -/
def lastComponent (s : String) : String :=
  String.mk ((splitSlash s.data).getLastD [])

/-- Models `str.replace('.bed.gz', '')`: removes every non-overlapping
occurrence of `".bed.gz"`, scanning left to right. -/
def removeBedGz : List Char → List Char
  | '.' :: 'b' :: 'e' :: 'd' :: '.' :: 'g' :: 'z' :: rest => removeBedGz rest
  | c :: rest => c :: removeBedGz rest
  | [] => []

/-- The accession derived from a source name: final path component with
`".bed.gz"` removed — `source.split('/')[-1].replace('.bed.gz', '')`,
computed identically in `load` and (for its print only) in
`load_local`. -/
def derived_accession (source : String) : String :=
  String.mk (removeBedGz (lastComponent source).data)

/-- Models the registration step of `load`:
`file_index = find_index(url.split('/')[-1].replace('.bed.gz', ''))`. -/
def load_registration (s : Registry) (url : String) : Nat × Registry :=
  find_index s (derived_accession url)

/-- Models the registration step of `load_local`:
`file_index = find_index(filepath.split('/')[-1])` — the `.bed.gz` suffix
is NOT removed from the registered string. -/
def load_local_registration (s : Registry) (filepath : String) : Nat × Registry :=
  find_index s (lastComponent filepath)

/-- C9 fails on the code for `load_local`: for the path
`"files/ENCFF001ABC.bed.gz"` the derived accession is `"ENCFF001ABC"`,
and `load` does register exactly that string; but `load_local` registers
the raw filename `"ENCFF001ABC.bed.gz"`, so the source index it writes
(0) is not the index of the derived accession — a later
`find_index("ENCFF001ABC")` allocates a different index (1). -/
theorem c9_load_local_suffix_bug :
    derived_accession "files/ENCFF001ABC.bed.gz" = "ENCFF001ABC"
      ∧ (load_registration init_registry "files/ENCFF001ABC.bed.gz").1
          = (find_index init_registry "ENCFF001ABC").1
      ∧ lastComponent "files/ENCFF001ABC.bed.gz" = "ENCFF001ABC.bed.gz"
      ∧ (load_local_registration init_registry
          "files/ENCFF001ABC.bed.gz").2.accession_to_index.lookup "ENCFF001ABC" = none
      ∧ (load_local_registration init_registry
          "files/ENCFF001ABC.bed.gz").2.accession_to_index.lookup "ENCFF001ABC.bed.gz" = some 0
      ∧ (load_local_registration init_registry "files/ENCFF001ABC.bed.gz").1 = 0
      ∧ (find_index (load_local_registration init_registry "files/ENCFF001ABC.bed.gz").2
          "ENCFF001ABC").1 = 1 := by
  refine ⟨by decide, by decide, by decide, by decide, by decide, by decide, by decide⟩

/-- Models `get_filtered_file_results(results, start, end, limit)`: run
the bounded filter, resolve each survivor through `find_file`, and yield
the filename only when it is truthy (`if filename:`), which drops both
the `None` sentinel of an unknown index and an empty-string
accession. -/
def get_filtered_file_results (s : Registry) (results : List Result) (start end_ : Int)
    (limit : Nat) : List String :=
  (filter_results results start end_ limit).filterMap (fun result =>
    match find_file s result.f0 with
    | some filename => if filename = "" then none else some filename
    | none => none)

/-- C10: the accession-variant query drops every surviving candidate
whose resolved accession is falsy: each output name is non-empty and is
the resolution of some surviving candidate, and a true-matching candidate
whose index resolves to the `None` sentinel (unknown index) or to a
registered empty-string accession contributes nothing to the output. -/
theorem c10_falsy_accession_excluded :
    (∀ (s : Registry) (results : List Result) (qstart qend : Int) (limit : Nat) (name : String),
        name ∈ get_filtered_file_results s results qstart qend limit →
          name ≠ ""
            ∧ ∃ r ∈ filter_results results qstart qend limit, find_file s r.f0 = some name)
      ∧ (filter_results [⟨0, 5, 10⟩] 0 100 25 = [⟨0, 5, 10⟩]
          ∧ find_file ⟨[("", 0)], [(0, "")], 1⟩ 0 = some ""
          ∧ get_filtered_file_results ⟨[("", 0)], [(0, "")], 1⟩ [⟨0, 5, 10⟩] 0 100 25 = [])
      ∧ (find_file init_registry 0 = none
          ∧ get_filtered_file_results init_registry [⟨0, 5, 10⟩] 0 100 25 = []) := by
  refine ⟨?_, by decide, by decide⟩
  intro s results qstart qend limit name hmem
  rw [get_filtered_file_results] at hmem
  obtain ⟨r, hr, hg⟩ := List.mem_filterMap.mp hmem
  cases hf : find_file s r.f0 with
  | none => rw [hf] at hg; exact Option.noConfusion hg
  | some filename =>
      rw [hf] at hg
      by_cases he : filename = ""
      · simp [he] at hg
      · simp [he] at hg
        subst hg
        exact ⟨he, r, hr, hf⟩

/-- Witness for `c10_falsy_accession_excluded`: with accession
`"ENCFF9"` registered at index 0, the single true-matching candidate is
returned and the theorem recovers it. -/
theorem c10_witness :
    "ENCFF9" ∈ get_filtered_file_results ⟨[("ENCFF9", 0)], [(0, "ENCFF9")], 1⟩
        [⟨0, 5, 10⟩] 0 100 25
      ∧ ("ENCFF9" ≠ ""
          ∧ ∃ r ∈ filter_results [⟨0, 5, 10⟩] 0 100 25,
              find_file ⟨[("ENCFF9", 0)], [(0, "ENCFF9")], 1⟩ r.f0 = some "ENCFF9") :=
  ⟨by decide,
    c10_falsy_accession_excluded.1 ⟨[("ENCFF9", 0)], [(0, "ENCFF9")], 1⟩ [⟨0, 5, 10⟩]
      0 100 25 "ENCFF9" (by decide)⟩

end Tiles
